import Mathlib

/-!
Verification development for the `learning-mcp` ingestion/search pipeline.

Shallow embedding of the Python source under `src/learning_mcp/`:
chunker (`chunker.py`), page range parsing (`page_ranges.py`), the Qdrant
adapter (`vdb.py`), the embedding orchestrator (`embeddings.py`), the jobs
table (`jobs_db.py`) and the ingest/search routes (`routes/ingest.py`,
`routes/search.py`).  Network calls and random UUID generation are modelled
as explicit oracle parameters (the call trace / the id stream), so the code
paths become pure functions of those oracles.
-/

deriving instance DecidableEq for Except

namespace LearningMcp

/-! ### Python string primitives

`str.split()` (whitespace split, no empties) and `str.strip()` modelled
character-by-character; `Char.isWhitespace` stands in for Python's
whitespace class (identical on ASCII text). -/

/-- Accumulator pass behind `pySplit`: splits a char list into maximal runs
of non-whitespace characters (`acc` holds the current run, reversed). -/
def wsTokensAux : List Char → List Char → List (List Char)
  | [], acc => if acc = [] then [] else [acc.reverse]
  | c :: cs, acc =>
    if c.isWhitespace then
      if acc = [] then wsTokensAux cs [] else acc.reverse :: wsTokensAux cs []
    else wsTokensAux cs (c :: acc)

/-- Python `text.split()`: whitespace-delimited tokens, empties discarded. -/
def pySplit (s : String) : List String :=
  (wsTokensAux s.toList []).map (fun cs => String.mk cs)

/-- Python `s.strip()`: drop whitespace from both ends. -/
def pyStrip (s : String) : String :=
  String.mk (((s.toList.dropWhile Char.isWhitespace).reverse.dropWhile
      Char.isWhitespace).reverse)

/-- Python `s.split(sep)` for a one-character separator, on char lists:
always at least one piece, empties kept. -/
def splitChar (sep : Char) : List Char → List (List Char)
  | [] => [[]]
  | c :: rest =>
    let r := splitChar sep rest
    if c = sep then [] :: r
    else
      match r with
      | h :: t => (c :: h) :: t
      | [] => [[c]]

/-- Python `s.split(sep)` for a one-character separator. -/
def pySplitOn (sep : Char) (s : String) : List String :=
  (splitChar sep s.toList).map String.mk

/-- Digit-run value of a char list (`none` if empty or any non-digit). -/
def digitsVal : List Char → Nat → Option Nat
  | [], acc => some acc
  | c :: cs, acc =>
    if c.isDigit then digitsVal cs (acc * 10 + (c.toNat - '0'.toNat))
    else none

/-- Python `int(s)` on an already-stripped char list: optional sign then a
non-empty digit run (`ValueError` becomes `none`). -/
def pyIntCore : List Char → Option Int
  | [] => none
  | '-' :: rest =>
    if rest = [] then none else (digitsVal rest 0).map (fun n => -(n : Int))
  | '+' :: rest =>
    if rest = [] then none else (digitsVal rest 0).map (fun n => (n : Int))
  | cs => (digitsVal cs 0).map (fun n => (n : Int))

/-! ### Chunker (`src/learning_mcp/chunker.py`, `chunk_text`) -/

/-- The `while i < n` loop of `chunk_text`, carried on the remaining token
list `rem = tokens[i:]` (so `i < n` becomes `rem ≠ []`, `j == n` becomes
`rem.length ≤ size` and `i += max(1, size - overlap)` becomes dropping
`max 1 (size - overlap)` tokens).  `fuel` bounds the number of iterations;
every iteration drops at least one token, so `fuel = tokens.length` is
always enough (the `0` case is unreachable then, as the window theorems
below confirm). -/
def chunkLoop (size overlap : Int) : Nat → List String → List String
  | _, [] => []
  | 0, _ :: _ => []
  | fuel + 1, rem@(_ :: _) =>
    let w := " ".intercalate (rem.take size.toNat)
    if rem.length ≤ size.toNat then [w]
    else w :: chunkLoop size overlap fuel (rem.drop (max 1 (size - overlap)).toNat)

/-- `chunk_text(text, size, overlap)` from `chunker.py`: `size <= 0` returns
the whole input as one chunk; otherwise whitespace tokens are windowed with
the clamped overlap and blank chunks are filtered out. -/
def chunk_text (text : String) (size : Int := 1200) (overlap : Int := 200) :
    List String :=
  if size ≤ 0 then [text]
  else
    let tokens := pySplit text
    let ov := if overlap ≥ size then max 0 (size - 1) else overlap
    (chunkLoop size ov tokens.length tokens).filter (fun c => pyStrip c ≠ "")

/-- Number of sliding windows over `n` tokens, window `size`, step `step`
(spec wording: windows starting at `0, step, 2*step, …` up to and including
the first window that reaches the end of the token stream). -/
def numWindows (n size step : Nat) : Nat :=
  if n = 0 then 0 else (n - size + step - 1) / step + 1

/-- Spec-side restatement of the chunker (§4.2 / §8 of the spec): windows of
`size` tokens stepping by `size - overlap`, the last (possibly partial)
window included, blank chunks dropped.  Written from the spec's words, to be
compared with `chunk_text`. -/
def specSlidingChunks (text : String) (size overlap : Int) : List String :=
  let tokens := pySplit text
  let sz := size.toNat
  let step := (size - overlap).toNat
  ((List.range (numWindows tokens.length sz step)).map
      (fun k => " ".intercalate ((tokens.drop (k * step)).take sz))).filter
    (fun c => pyStrip c ≠ "")

/-! ### Page ranges (`src/learning_mcp/page_ranges.py`) -/

/-- A page spec argument: Python `None`, a string like `"1-5,10"`, or an
iterable of items (already rendered with `str(item).strip()`). -/
inductive PageSpec where
  | nothing : PageSpec
  | ofStr (s : String) : PageSpec
  | items (l : List String) : PageSpec
deriving DecidableEq

/-- Python `int(s)` after stripping, as `parse_page_ranges` uses it
(`ValueError` becomes `none`). -/
def pyInt (s : String) : Option Int :=
  pyIntCore (pyStrip s).toList

/-- Python `range(start, stop + 1)` over ints. -/
def intRange (start stop : ℤ) : List ℤ :=
  (List.range (stop + 1 - start).toNat).map (fun i : ℕ => start + (i : ℤ))

/-- The `parts` list of `parse_page_ranges`: a string spec is split on `","`
and each part stripped; an iterable keeps the non-blank stripped items. -/
def pageParts : PageSpec → List String
  | .nothing => []
  | .ofStr s => (pySplitOn ',' s).map pyStrip
  | .items l => (l.map pyStrip).filter (fun s => s ≠ "")

/-- The accumulation loop of `parse_page_ranges` over `parts`, building the
set `out` (a list, de-duplicated and sorted at the end, which is what
Python's `sorted(set(out))` observes); any invalid range/page (or
unparsable int) raises `ValueError`, modelled as `Except.error`. -/
def pageLoop : List String → List ℤ → Except String (List ℤ)
  | [], out => .ok out
  | part :: rest, out =>
    if part = "" then pageLoop rest out
    else if 2 ≤ (pySplitOn '-' part).length then
      match pySplitOn '-' part with
      | [] => .error "unreachable: split is never empty"
      | a :: bs =>
        match pyInt a, pyInt ("-".intercalate bs) with
        | some start, some stop =>
          if start ≤ 0 ∨ stop ≤ 0 ∨ stop < start then
            .error ("Invalid range '" ++ part ++ "'")
          else pageLoop rest (out ++ intRange start stop)
        | _, _ => .error ("invalid literal for int(): '" ++ part ++ "'")
    else
      match pyInt part with
      | some n =>
        if n ≤ 0 then .error ("Invalid page '" ++ part ++ "'")
        else pageLoop rest (out ++ [n])
      | none => .error ("invalid literal for int(): '" ++ part ++ "'")

/-- `parse_page_ranges(spec)`: expand a page spec into a sorted, unique list
of ints (`sorted(set(out))`), or raise `ValueError`. -/
def parse_page_ranges (spec : PageSpec) : Except String (List ℤ) :=
  (pageLoop (pageParts spec) []).map
    (fun out => List.insertionSort (· ≤ ·) out.dedup)

/-- `compute_pages(include_spec, exclude_spec, total_pages)`: include spec if
non-empty, else `1..total_pages` (error when `total_pages` is `None`), minus
the excluded pages.  Any `ValueError` from parsing propagates. -/
def compute_pages (includeSpec excludeSpec : PageSpec)
    (totalPages : Option ℤ) : Except String (List ℤ) := do
  let includePages ← parse_page_ranges includeSpec
  let excludePages ← parse_page_ranges excludeSpec
  let base ←
    if includePages ≠ [] then pure includePages
    else
      match totalPages with
      | none => Except.error "total_pages required when include_spec is not provided"
      | some t => pure ((List.range t.toNat).map (fun i : ℕ => (i : ℤ) + 1))
  pure (base.filter (fun p => ¬ p ∈ excludePages))

/-- `_count_selected_pages` from `routes/ingest.py`: number of pages selected
by `compute_pages` against the document's true page count (errors from
`compute_pages` propagate to the enqueue-time preflight). -/
def countSelectedPages (totalPages : ℤ) (includeSpec excludeSpec : PageSpec) :
    Except String Nat :=
  (compute_pages includeSpec excludeSpec (some totalPages)).map List.length

/-- A part of a page spec that is "an inverted range (end < start) or a
non-positive page number": written from the claim's words, against the same
part dissection the source uses (`"-" in part` is `2 ≤` split length, the
two range halves are the head and the joined tail of the split). -/
def IsMalformedPart (p : String) : Prop :=
  (2 ≤ (pySplitOn '-' p).length ∧
    ∃ start stop,
      pyInt ((pySplitOn '-' p).headD "") = some start ∧
      pyInt ("-".intercalate (pySplitOn '-' p).tail) = some stop ∧
      (start ≤ 0 ∨ stop ≤ 0 ∨ stop < start)) ∨
  (¬ 2 ≤ (pySplitOn '-' p).length ∧ ∃ n, pyInt p = some n ∧ n ≤ 0)

/-! ### Vector values and sanitization

A JSON number slot in an embedding vector: a finite float (abstracted as a
rational), `NaN`, `Infinity`, `null`, or a boolean — the shapes
`_sanitize_vec` guards against in both `embeddings.py` and `vdb.py`. -/

inductive JVal where
  | num (q : ℚ) : JVal
  | nan : JVal
  | inf : JVal
  | null : JVal
  | jbool (b : Bool) : JVal
deriving DecidableEq

/-- An entry passes the `NaN/Inf/None/bool` check. -/
def JVal.isFiniteNum : JVal → Bool
  | .num _ => true
  | _ => false

/-- `_sanitize_vec` of `embeddings.py`: raise `EmbeddingError` if any entry
is `NaN/Inf/None/bool`, otherwise return the vector. -/
def sanitize_vec (vec : List JVal) : Except String (List JVal) :=
  if vec.any (fun v => !v.isFiniteNum) then
    .error "Invalid number in embedding vector (NaN/Inf/None/bool)."
  else .ok vec

/-- `_sanitize_vec` of `vdb.py`: additionally rejects an empty vector. -/
def vdbSanitizeVec (vec : List JVal) : Except String Unit :=
  if vec = [] then .error "Vector must be a non-empty list"
  else if vec.any (fun v => !v.isFiniteNum) then
    .error "Invalid number in embedding vector (NaN/Inf/None/bool)"
  else .ok ()

/-! ### Vector store adapter (`src/learning_mcp/vdb.py`)

The Qdrant collection is modelled by its existence flag and its points
(id-keyed; upserting an existing id overwrites).  Every adapter operation
returns, besides its result, the updated store and the number of network
calls it made, so "before any network call" is the statement that the count
is `0` and the store unchanged. -/

/-- A point payload: a string-keyed map (values rendered as strings). -/
abbrev Payload := List (String × String)

/-- Python `payload.get("hash")` plus the `isinstance(h, str) and h` guard. -/
def payloadHash (p : Payload) : Option String :=
  match List.lookup "hash" p with
  | some h => if h ≠ "" then some h else none
  | none => none

/-- The state of the Qdrant collection targeted by a `VDB` instance. -/
structure QdrantStore where
  collectionExists : Bool
  points : List (String × List JVal × Payload)
deriving DecidableEq

/-- Number of stored points (`count()` with `exact=True`). -/
def QdrantStore.pointCount (st : QdrantStore) : Nat :=
  st.points.length

/-- `ensure_collection`: `get_collection` (one network call), and on failure
`recreate_collection` (a second call) creating the collection empty. -/
def ensureCollection (st : QdrantStore) : QdrantStore × Nat :=
  if st.collectionExists then (st, 1)
  else ({ collectionExists := true, points := [] }, 2)

/-- Upsert one point: a point with the same id is overwritten, otherwise the
point is appended (Qdrant upsert semantics). -/
def putPoint (pts : List (String × List JVal × Payload))
    (id : String) (vec : List JVal) (pl : Payload) :
    List (String × List JVal × Payload) :=
  if pts.any (fun q => q.1 = id) then
    pts.map (fun q => if q.1 = id then (id, vec, pl) else q)
  else pts ++ [(id, vec, pl)]

/-- Write a batch of points (`client.upsert`, one network call per batch). -/
def putBatch (pts : List (String × List JVal × Payload)) :
    List (String × List JVal × Payload) →
    List (String × List JVal × Payload)
  | [] => pts
  | (id, v, pl) :: rest => putBatch (putPoint pts id v pl) rest

/-- `VDB_UPSERT_BATCH` default. -/
def UPSERT_BATCH : Nat := 256

/-- The per-vector `len(v) != self.dim` / `_sanitize_vec(v)` loop of
`VDB.upsert`. -/
def checkVectors (dim : Nat) : List (List JVal) → Except String Unit
  | [] => .ok ()
  | v :: rest =>
    if v.length ≠ dim then
      .error ("Inconsistent vector dims: found " ++ toString v.length ++
        ", expected " ++ toString dim ++ ".")
    else
      match vdbSanitizeVec v with
      | .error e => .error e
      | .ok _ => checkVectors dim rest

/-- The id-preparation branch of `VDB.upsert` when `ids is None`: a payload
`hash` is used as a deterministic id, otherwise a fresh `uuid4()` is drawn
(modelled by the stream `uuid`). -/
def prepareIds (uuid : Nat → String) (payloads : List Payload) : List String :=
  (List.range payloads.length).map (fun i =>
    match payloadHash (payloads.getD i []) with
    | some h => h
    | none => uuid i)

/-- The batched write loop of `VDB.upsert`: `UPSERT_BATCH` points per
`client.upsert` network call. -/
def upsertBatches (st : QdrantStore)
    (triples : List (String × List JVal × Payload)) : QdrantStore × Nat :=
  let batches := (triples.toChunks UPSERT_BATCH)
  (⟨st.collectionExists, batches.foldl putBatch st.points⟩, batches.length)

/-- `VDB.upsert(vectors, payloads, ids)`: validation (length agreement,
dimension of every vector, sanitization) happens before `ensure_collection`
and the batched writes; returns the written ids in input order.  Result is
`(outcome, store after, network calls made)`. -/
def VDB.upsert (dim : Nat) (st : QdrantStore) (uuid : Nat → String)
    (vectors : List (List JVal)) (payloads : List Payload)
    (ids : Option (List String)) :
    Except String (List String) × QdrantStore × Nat :=
  if vectors.length ≠ payloads.length then
    (.error "vectors and payloads length mismatch", st, 0)
  else if _h : ∃ l, ids = some l ∧ l.length ≠ vectors.length then
    (.error "ids length must match vectors length when provided", st, 0)
  else if vectors = [] then (.ok [], st, 0)
  else
    let d0 := (vectors.headD []).length
    if d0 ≠ dim then
      (.error ("Vector dim mismatch: got " ++ toString d0 ++ ", expected " ++
        toString dim ++ ". Check VECTOR_DIM & model."), st, 0)
    else
      match checkVectors dim vectors with
      | .error e => (.error e, st, 0)
      | .ok _ =>
        let (st1, calls1) := ensureCollection st
        let theIds :=
          match ids with
          | none => prepareIds uuid payloads
          | some l => l
        let triples := (theIds.zip (vectors.zip payloads)).map
          (fun q => (q.1, q.2.1, q.2.2))
        let (st2, calls2) := upsertBatches st1 triples
        (.ok theIds, st2, calls1 + calls2)

/-- `VDB.search(query_vec, top_k)`: dimension check and sanitization of the
query vector happen before `ensure_collection` and the `client.search`
network call; the nearest-neighbour computation itself is the external
service, modelled by the oracle `knn`. -/
def VDB.search (dim : Nat) (st : QdrantStore)
    (knn : QdrantStore → List JVal → Nat → List (String × ℚ × Payload))
    (queryVec : List JVal) (topK : Nat) :
    Except String (List (String × ℚ × Payload)) × QdrantStore × Nat :=
  if queryVec.length ≠ dim then
    (.error ("Query vector dim mismatch: got " ++ toString queryVec.length ++
      ", expected " ++ toString dim ++ "."), st, 0)
  else
    match vdbSanitizeVec queryVec with
    | .error e => (.error e, st, 0)
    | .ok _ =>
      let (st1, calls1) := ensureCollection st
      (.ok (knn st1 queryVec topK), st1, calls1 + 1)

/-! ### Embedding orchestrator (`src/learning_mcp/embeddings.py`)

The per-text HTTP call is modelled by an oracle
`oracle backend attempt text : Except String (List JVal)` giving the outcome
of the `attempt`-th try of `text` on `backend`; the orchestrator is a pure
function of that oracle.  Backend batch calls are additionally recorded in a
trace `(backend, texts sent)` so "which texts were sent where" is
observable. -/

/-- Per-item `Except` traversal (the monadic map over a list, written out
structurally): first failure aborts, successes are collected in order. -/
def mapOrError (f : α → Except String β) : List α → Except String (List β)
  | [] => .ok []
  | a :: as =>
    match f a with
    | .error e => .error e
    | .ok b =>
      match mapOrError f as with
      | .error e => .error e
      | .ok bs => .ok (b :: bs)

/-- Collect a list of optionals, `none` when any entry is missing. -/
def allSome : List (Option α) → Option (List α)
  | [] => some []
  | none :: _ => none
  | some a :: rest => (allSome rest).map (a :: ·)

/-- The slice of `EmbeddingConfig` the orchestration logic reads. -/
structure EmbeddingConfig where
  dim : Nat
  primary : String
  fallback : Option String
  maxRetries : Nat
deriving DecidableEq

/-- `Embedder._backend_order`: `[primary, fallback]` when a distinct
fallback is configured, else `[primary]`. -/
def backendOrder (cfg : EmbeddingConfig) : List String :=
  match cfg.fallback with
  | some f => if f ≠ cfg.primary then [cfg.primary, f] else [cfg.primary]
  | none => [cfg.primary]

/-- The loop of `Embedder._retry`: attempt `attempt`, with `remaining`
further attempts allowed (`remaining = max_retries - attempt`, so
`attempt >= max_retries` becomes `remaining = 0`).  Returns the outcome and
the number of calls made. -/
def retryGo (fn : Nat → Except String (List JVal)) :
    Nat → Nat → Except String (List JVal) × Nat
  | attempt, remaining =>
    match fn attempt with
    | .ok v => (.ok v, 1)
    | .error e =>
      match remaining with
      | 0 => (.error e, 1)
      | r + 1 =>
        let p := retryGo fn (attempt + 1) r
        (p.1, p.2 + 1)

/-- `Embedder._retry`: retry `fn` with at most `max_retries + 1` total
attempts; `(outcome, number of calls made)`. -/
def Embedder.retry (maxRetries : Nat) (fn : Nat → Except String (List JVal)) :
    Except String (List JVal) × Nat :=
  retryGo fn 0 maxRetries

/-- `_embed_ollama`/`_embed_cloudflare`: one retried single-item call per
text, results reassembled in input order; any single item failing after its
retries fails the whole batch with `EmbeddingError`. -/
def embedBackendBatch (cfg : EmbeddingConfig)
    (oracle : String → Nat → String → Except String (List JVal))
    (backend : String) (texts : List String) :
    Except String (List (List JVal)) :=
  mapOrError (fun t =>
    match (Embedder.retry cfg.maxRetries (fun k => oracle backend k t)).1 with
    | .ok v => Except.ok v
    | .error e => Except.error ("single-item call failed after retries: " ++ e))
    texts

/-- `Embedder._validate`: dimension check of the batch — note the source
checks `len(vecs[0])` only. -/
def validateDims (dim : Nat) (vecs : List (List JVal)) : Except String Unit :=
  match vecs with
  | [] => .ok ()
  | v0 :: _ =>
    if v0.length ≠ dim then
      .error ("Vector dim mismatch: dim=" ++ toString v0.length ++
        ", expected=" ++ toString dim ++ ". Adjust profile.embedding.dim or model.")
    else .ok ()

/-- One backend's turn inside the `for backend in order` loop of
`Embedder.embed`: run the batch, sanitize every returned vector, validate
dimensions.  Any raise here is caught by the loop, which then moves on. -/
def attemptBackend (cfg : EmbeddingConfig)
    (oracle : String → Nat → String → Except String (List JVal))
    (backend : String) (texts : List String) :
    Except String (List (List JVal)) :=
  match embedBackendBatch cfg oracle backend texts with
  | .error e => .error e
  | .ok vecs =>
    match mapOrError sanitize_vec vecs with
    | .error e => .error e
    | .ok vecsS =>
      match validateDims cfg.dim vecsS with
      | .error e => .error e
      | .ok _ => .ok vecsS

/-- The `for backend in order` loop: try each backend on the same
`pendingTexts`, keeping the last error; the trace records each batch call
made as `(backend, texts sent)`. -/
def tryBackends (cfg : EmbeddingConfig)
    (oracle : String → Nat → String → Except String (List JVal))
    (pendingTexts : List String) :
    List String → String →
    Except String (List (List JVal)) × List (String × List String)
  | [], lastErr => (.error lastErr, [])
  | b :: rest, _lastErr =>
    match attemptBackend cfg oracle b pendingTexts with
    | .ok vecs => (.ok vecs, [(b, pendingTexts)])
    | .error e =>
      let p := tryBackends cfg oracle pendingTexts rest e
      (p.1, (b, pendingTexts) :: p.2)

/-- `EMBED_MAX_CHARS` default. -/
def EMBED_MAX_CHARS : Nat := 8000

/-- `_trim_texts`: defensive truncation of over-long inputs. -/
def trimTexts (texts : List String) : List String :=
  texts.map (fun t =>
    if t.length > EMBED_MAX_CHARS then t.take EMBED_MAX_CHARS else t)

/-- The cache-lookup phase of `Embedder.embed`: when `ids` and `cache` are
both given and `ids` is aligned with `texts`, hits short-circuit (each hit
re-sanitized, which can raise); returns the partial results and the pending
index list.  Otherwise everything is pending. -/
def cachePhase (texts : List String) (ids : Option (List String))
    (cache : Option (List (String × List JVal))) :
    Except String (List (Option (List JVal)) × List Nat) :=
  match ids, cache with
  | some idl, some c =>
    if idl.length = texts.length then
      match mapOrError (fun i =>
          match List.lookup (idl.getD i "") c with
          | some vec => (sanitize_vec vec).map some
          | none => Except.ok none) (List.range texts.length) with
      | .error e => .error e
      | .ok results =>
        .ok (results,
          (List.range texts.length).filter (fun i => results.getD i none = none))
    else .ok (List.replicate texts.length none, List.range texts.length)
  | _, _ => .ok (List.replicate texts.length none, List.range texts.length)

/-- Place a successful batch back at the pending indices
(`for j, idx in enumerate(pending_indices): results[idx] = vecs[j]`). -/
def fillResults (results : List (Option (List JVal))) (pending : List Nat)
    (vecs : List (List JVal)) : List (Option (List JVal)) :=
  (pending.zip vecs).foldl (fun acc q => acc.set q.1 (some q.2)) results

/-- `Embedder.embed(texts, ids=…, cache=…)`: trim, cache short-circuit,
backend loop over the pending subset, reassembly in input order.  Returns
the outcome and the trace of backend batch calls. -/
def Embedder.embed (cfg : EmbeddingConfig)
    (oracle : String → Nat → String → Except String (List JVal))
    (texts : List String) (ids : Option (List String))
    (cache : Option (List (String × List JVal))) :
    Except String (List (List JVal)) × List (String × List String) :=
  if texts = [] then (.ok [], [])
  else
    let texts' := trimTexts texts
    match cachePhase texts' ids cache with
    | .error e => (.error e, [])
    | .ok (results, pending) =>
      if pending = [] then (.ok (results.map (fun o => o.getD [])), [])
      else
        let pendingTexts := pending.map (fun i => texts'.getD i "")
        let p := tryBackends cfg oracle pendingTexts (backendOrder cfg)
          "Embedding failed"
        match p.1 with
        | .error e => (.error e, p.2)
        | .ok vecs =>
          match allSome (fillResults results pending vecs) with
          | some final => (.ok final, p.2)
          | none => (.error "Embedding failed", p.2)

/-! ### Jobs table (`src/learning_mcp/jobs_db.py`) -/

inductive JobStatus where
  | queued | running | completed | failed | canceled
deriving DecidableEq

inductive JobPhase where
  | preflight | extract | embed | upsert | finished
deriving DecidableEq

/-- One row of the `jobs` table (the columns the lifecycle logic touches). -/
structure JobRow where
  jobId : String
  profile : String
  status : JobStatus
  phase : JobPhase
  error : Option String
deriving DecidableEq

abbrev JobsTable := List JobRow

/-- `status IN (queued, running)`. -/
def JobRow.isActive (r : JobRow) : Bool :=
  r.status == .queued || r.status == .running

/-- `JobsDB.start_job`: insert a fresh QUEUED/PREFLIGHT row. -/
def start_job (tbl : JobsTable) (jobId profile : String) : JobsTable :=
  tbl ++ [⟨jobId, profile, .queued, .preflight, none⟩]

/-- `UPDATE jobs SET … WHERE job_id=?`. -/
def updateJob (tbl : JobsTable) (jobId : String) (f : JobRow → JobRow) :
    JobsTable :=
  tbl.map (fun r => if r.jobId == jobId then f r else r)

/-- `JobsDB.mark_running`. -/
def mark_running (tbl : JobsTable) (jobId : String) : JobsTable :=
  updateJob tbl jobId (fun r => { r with status := .running })

/-- `JobsDB.finish_job`: set a terminal status, phase FINISHED. -/
def finish_job (tbl : JobsTable) (jobId : String) (s : JobStatus)
    (err : Option String) : JobsTable :=
  updateJob tbl jobId (fun r => { r with status := s, phase := .finished, error := err })

/-- `JobsDB.cancel_queued_or_running_for_profile`: one `UPDATE … WHERE
profile=? AND status IN (queued, running)`; returns the new table and the
rowcount. -/
def cancel_queued_or_running_for_profile (tbl : JobsTable) (profile : String) :
    JobsTable × Nat :=
  (tbl.map (fun r =>
      if r.profile == profile && r.isActive then { r with status := .canceled }
      else r),
    (tbl.filter (fun r => r.profile == profile && r.isActive)).length)

/-- The durable-table effect of `enqueue_ingest` (`routes/ingest.py`): cancel
active rows of the profile, then insert the new job.  The response's
`canceled_previous` field is the returned count.  Note the previous job's
`asyncio.Task` is NOT cancelled here — only `cancel_all_ingest` does that. -/
def enqueue_ingest (tbl : JobsTable) (profile newJobId : String) :
    JobsTable × Nat :=
  let p := cancel_queued_or_running_for_profile tbl profile
  (start_job p.1 newJobId profile, p.2)

/-- Durable status of a job as an external reader sees it. -/
def jobStatus (tbl : JobsTable) (jobId : String) : Option JobStatus :=
  (tbl.find? (fun r => r.jobId == jobId)).map JobRow.status

/-! ### Ingest worker id generation (`routes/ingest.py`, `_worker_run_ingest`) -/

/-- `os.path.basename` for `/`-separated paths. -/
def basename (p : String) : String :=
  (pySplitOn '/' p).getLastD p

/-- The deterministic chunk key `f"{doc_id}:{basename(path)}:{i}"` (used as
the embedding-cache id and stored as the payload's `chunk_id`). -/
def mkChunkKey (docId fileName : String) (i : Nat) : String :=
  docId ++ ":" ++ fileName ++ ":" ++ toString i

/-- The point ids the worker passes to `VDB.upsert`:
`[str(uuid.uuid4()) for _ in range(len(chunks))]` — one fresh draw from the
uuid stream per chunk, independent of document identity. -/
def workerPointIds (uuid : Nat → String) (numChunks : Nat) : List String :=
  (List.range numChunks).map uuid

/-- The payloads the worker builds for one file's chunks
(`doc_id = profile.get("name")`). -/
def workerPayloads (profileName path : String) (chunks : List String) :
    List Payload :=
  (List.range chunks.length).map (fun i =>
    [("doc_id", profileName),
     ("chunk_id", mkChunkKey profileName (basename path) i),
     ("profile", profileName),
     ("doc_path", path),
     ("chunk_idx", toString i),
     ("text", chunks.getD i "")])

/-- The UPSERT step of `_worker_run_ingest` for one file: upsert the file's
vectors under freshly drawn uuid point ids. -/
def workerUpsertFile (dim : Nat) (st : QdrantStore) (uuid : Nat → String)
    (profileName path : String) (chunks : List String)
    (vecs : List (List JVal)) :
    Except String (List String) × QdrantStore × Nat :=
  VDB.upsert dim st uuid vecs (workerPayloads profileName path chunks)
    (some (workerPointIds uuid chunks.length))

/-! ### Search route (`src/learning_mcp/routes/search.py`)

After profile resolution: `collection_exists` (which catches internally and
never raises), `count` (a network call whose outcome is the oracle
`countOutcome`; a raise there is caught and turned into the
`("error", [])` response), then the embed+search stage (whose
`EmbeddingError` becomes an HTTP 500, modelled as `Except.error`). -/

def routeSearch (st : QdrantStore) (countOutcome : Except String Nat)
    (embedAndSearch : Unit → Except String (List (String × ℚ × Payload))) :
    Except String (String × List (String × ℚ × Payload)) :=
  let exists_ := st.collectionExists
  match (if exists_ then countOutcome else .ok 0) with
  | .error _ => .ok ("error", [])
  | .ok cnt =>
    if exists_ = false ∨ cnt = 0 then .ok ("error", [])
    else
      match embedAndSearch () with
      | .ok hits => .ok ("ok", hits)
      | .error e => .error ("Embedding failed: " ++ e)

/-! ## Theorems -/

/-! ### Chunker lemmas -/

lemma numWindows_of_le {n size step : Nat} (hn : n ≠ 0) (hst : 1 ≤ step)
    (h : n ≤ size) : numWindows n size step = 1 := by
  unfold numWindows
  rw [if_neg hn]
  have h1 : n - size = 0 := by omega
  rw [h1]
  have h2 : (0 + step - 1) / step = 0 := Nat.div_eq_of_lt (by omega)
  rw [h2]

lemma numWindows_succ {n size step : Nat} (hst : 1 ≤ step) (hsz : step ≤ size)
    (h : size < n) :
    numWindows n size step = numWindows (n - step) size step + 1 := by
  have hn0 : n ≠ 0 := by omega
  have hm0 : n - step ≠ 0 := by omega
  unfold numWindows
  rw [if_neg hn0, if_neg hm0]
  have hrw : n - step - size = n - size - step := by omega
  rw [hrw]
  set A := n - size with hA
  have hA1 : 1 ≤ A := by omega
  rcases le_or_lt step A with hle | hlt
  · have h1 : A - step + step - 1 = A - 1 := by omega
    have h2 : A + step - 1 = A - 1 + step := by omega
    rw [h1, h2, Nat.add_div_right _ (by omega)]
  · have h1 : A - step = 0 := by omega
    rw [h1]
    have h2 : (0 + step - 1) / step = 0 := Nat.div_eq_of_lt (by omega)
    rw [h2]
    have h3 : A + step - 1 = A - 1 + step := by omega
    rw [h3, Nat.add_div_right _ (by omega), Nat.div_eq_of_lt (by omega)]

/-- The loop of `chunk_text` computes exactly the sliding windows at starts
`0, step, 2·step, …`, stopping with the first window that reaches the end of
the token stream, when `0 ≤ overlap < size`. -/
lemma chunkLoop_eq_windows (size overlap : Int) (hov : 0 ≤ overlap)
    (hlt : overlap < size) :
    ∀ (fuel : Nat) (tokens : List String), tokens.length ≤ fuel →
    chunkLoop size overlap fuel tokens =
      (List.range (numWindows tokens.length size.toNat (size - overlap).toNat)).map
        (fun k => " ".intercalate
          ((tokens.drop (k * (size - overlap).toNat)).take size.toNat)) := by
  intro fuel
  induction fuel with
  | zero =>
    intro tokens h
    have h0 : tokens = [] := List.length_eq_zero.mp (by omega)
    subst h0
    simp [chunkLoop, numWindows]
  | succ fuel ih =>
    intro tokens h
    match tokens with
    | [] => simp [chunkLoop, numWindows]
    | t :: ts =>
      have hst1 : 1 ≤ (size - overlap).toNat := by omega
      have hstsz : (size - overlap).toNat ≤ size.toNat := by omega
      by_cases hcase : (t :: ts).length ≤ size.toNat
      · rw [numWindows_of_le (by simp) hst1 hcase]
        have hcase' : ts.length + 1 ≤ size.toNat := by simpa using hcase
        simp [chunkLoop, if_pos hcase, List.range_succ]
        intro hc
        exact absurd hc (by omega)
      · push_neg at hcase
        have hmax : max 1 (size - overlap) = size - overlap :=
          max_eq_right (by omega)
        have hdroplen : ((t :: ts).drop (size - overlap).toNat).length ≤ fuel := by
          simp only [List.length_drop]
          simp only [List.length_cons] at h ⊢
          omega
        rw [numWindows_succ hst1 hstsz hcase]
        simp only [chunkLoop, if_neg (by omega : ¬ (t :: ts).length ≤ size.toNat),
          hmax, ih _ hdroplen, List.length_drop, List.range_succ_eq_map,
          List.map_cons, List.map_map, Nat.zero_mul, List.drop_zero]
        congr 1
        apply List.map_congr_left
        intro k _
        simp only [Function.comp_apply, List.drop_drop, Nat.succ_mul]
        rw [Nat.add_comm]

lemma wsTokensAux_all_ws :
    ∀ l : List Char, (∀ c ∈ l, c.isWhitespace) → wsTokensAux l [] = [] := by
  intro l
  induction l with
  | nil => intro _; simp [wsTokensAux]
  | cons c cs ih =>
    intro h
    have hc : c.isWhitespace := h c (List.mem_cons_self c cs)
    simp only [wsTokensAux, hc, if_true, if_pos rfl]
    exact ih (fun c' hc' => h c' (List.mem_cons_of_mem c hc'))

lemma all_ws_of_pyStrip_empty (s : String) (h : pyStrip s = "") :
    ∀ c ∈ s.toList, c.isWhitespace := by
  have hl : ((s.toList.dropWhile Char.isWhitespace).reverse.dropWhile
      Char.isWhitespace).reverse = [] := by
    simpa [pyStrip] using congrArg String.data h
  rw [List.reverse_eq_nil_iff] at hl
  have hrev : ∀ c ∈ (s.toList.dropWhile Char.isWhitespace).reverse,
      c.isWhitespace = true := List.dropWhile_eq_nil_iff.mp hl
  have hdrop : ∀ c ∈ s.toList.dropWhile Char.isWhitespace, c.isWhitespace :=
    fun c hc => hrev c (List.mem_reverse.mpr hc)
  intro c hc
  rw [← List.takeWhile_append_dropWhile (p := Char.isWhitespace)
    (l := s.toList)] at hc
  rcases List.mem_append.mp hc with h1 | h2
  · exact List.mem_takeWhile_imp h1
  · exact hdrop c h2

lemma pySplit_of_blank (s : String) (h : pyStrip s = "") : pySplit s = [] := by
  unfold pySplit
  rw [wsTokensAux_all_ws _ (all_ws_of_pyStrip_empty s h)]
  rfl

/-! ### C4 — sliding-window chunking -/

/-- C4: for `0 ≤ overlap < size`, `chunk_text` splits the whitespace-token
stream into windows of `size` tokens stepping by `size - overlap` tokens,
the last (possibly partial, non-blank) window included, in the sense that it
coincides with the spec-side `specSlidingChunks`; the documented example
produces exactly its three chunks; and `overlap ≥ size` is silently clamped
to `size - 1`. -/
theorem chunk_text_sliding_window (text : String) (size overlap : Int)
    (hov : 0 ≤ overlap) (hlt : overlap < size) :
    chunk_text text size overlap = specSlidingChunks text size overlap ∧
    chunk_text "one two three four five six seven eight nine ten" 4 1 =
      ["one two three four", "four five six seven", "seven eight nine ten"] ∧
    ∀ ov' : Int, size ≤ ov' →
      chunk_text text size ov' = chunk_text text size (size - 1) := by
  refine ⟨?_, by decide, ?_⟩
  · have h0 : ¬ size ≤ 0 := by omega
    have h1 : ¬ overlap ≥ size := by omega
    simp only [chunk_text, specSlidingChunks, if_neg h0, if_neg h1]
    rw [chunkLoop_eq_windows size overlap hov hlt (pySplit text).length
      (pySplit text) le_rfl]
  · intro ov' hov'
    have h0 : ¬ size ≤ 0 := by omega
    simp only [chunk_text, if_neg h0]
    have e1 : (if ov' ≥ size then max 0 (size - 1) else ov') = size - 1 := by
      rw [if_pos hov']
      exact max_eq_right (by omega)
    have e2 : (if size - 1 ≥ size then max 0 (size - 1) else size - 1) =
        size - 1 := by
      rw [if_neg (by omega)]
    rw [e1, e2]

/-- Witness for `chunk_text_sliding_window` at the documented example. -/
theorem chunk_text_sliding_window_witness :
    (0 : Int) ≤ 1 ∧ (1 : Int) < 4 ∧
    chunk_text "one two three four five six seven eight nine ten" 4 1 =
      specSlidingChunks "one two three four five six seven eight nine ten" 4 1 :=
  ⟨by norm_num, by norm_num,
    (chunk_text_sliding_window "one two three four five six seven eight nine ten"
      4 1 (by norm_num) (by norm_num)).1⟩

/-! ### C5 — edge-case policy -/

/-- C5 (counterexample): on the empty input with `size ≤ 0` the `size <= 0`
branch wins: `chunk_text` returns the whole (empty) input as one chunk, not
the empty chunk list the claim's unscoped "empty input produces no chunks"
asserts. -/
theorem chunk_text_empty_input_size_nonpositive :
    pyStrip "" = "" ∧ chunk_text "" 0 0 = [""] ∧ chunk_text "" 0 0 ≠ [] := by
  refine ⟨rfl, by decide, by decide⟩

/-- C5 (amended): `size ≤ 0` returns the entire input as one chunk (even
when the input is empty/whitespace-only); for `0 < size`, an empty or
whitespace-only input produces no chunks. -/
theorem chunk_text_edge_case_policy (text : String) (size overlap : Int) :
    (size ≤ 0 → chunk_text text size overlap = [text]) ∧
    (0 < size → pyStrip text = "" → chunk_text text size overlap = []) := by
  constructor
  · intro h
    simp [chunk_text, if_pos h]
  · intro hs hstrip
    simp only [chunk_text, if_neg (by omega : ¬ size ≤ 0)]
    rw [pySplit_of_blank text hstrip]
    rfl

/-- Witness for `chunk_text_edge_case_policy` at concrete inputs. -/
theorem chunk_text_edge_case_policy_witness :
    chunk_text "alpha beta" (-1) 0 = ["alpha beta"] ∧ chunk_text "  " 3 0 = [] :=
  ⟨(chunk_text_edge_case_policy "alpha beta" (-1) 0).1 (by norm_num),
    (chunk_text_edge_case_policy "  " 3 0).2 (by norm_num) (by decide)⟩

/-! ### C10 — page-range validation -/

lemma intRange_pos {start stop : ℤ} (hs : 0 < start) :
    ∀ p ∈ intRange start stop, 0 < p := by
  intro p hp
  unfold intRange at hp
  obtain ⟨i, hi, rfl⟩ := List.mem_map.mp hp
  have h0 : (0 : ℤ) ≤ (i : ℤ) := Int.natCast_nonneg i
  omega

lemma pageLoop_pos :
    ∀ (parts : List String) (out res : List ℤ),
    pageLoop parts out = .ok res → (∀ p ∈ out, 0 < p) → ∀ p ∈ res, 0 < p := by
  intro parts
  induction parts with
  | nil =>
    intro out res h hout
    simp only [pageLoop] at h
    cases h
    exact hout
  | cons part rest ih =>
    intro out res h hout
    simp only [pageLoop] at h
    split at h
    · exact ih out res h hout
    · split at h
      · split at h
        · simp at h
        · split at h
          · next start stop =>
            split at h
            · simp at h
            · next h3 =>
              push_neg at h3
              refine ih _ res h ?_
              intro p hp
              rcases List.mem_append.mp hp with hp1 | hp2
              · exact hout p hp1
              · exact intRange_pos (by omega) p hp2
          · simp at h
      · split at h
        · next n =>
          split at h
          · simp at h
          · next h3 =>
            refine ih _ res h ?_
            intro p hp
            rcases List.mem_append.mp hp with hp1 | hp2
            · exact hout p hp1
            · simp only [List.mem_singleton] at hp2
              omega
        · simp at h

lemma parse_page_ranges_ok (spec : PageSpec) (l : List ℤ)
    (h : parse_page_ranges spec = .ok l) :
    l.Sorted (· < ·) ∧ ∀ p ∈ l, 0 < p := by
  unfold parse_page_ranges at h
  cases hp : pageLoop (pageParts spec) [] with
  | error e => rw [hp] at h; simp [Except.map] at h
  | ok out =>
    rw [hp] at h
    simp only [Except.map] at h
    cases h
    have hsorted : (List.insertionSort (· ≤ ·) out.dedup).Sorted (· ≤ ·) :=
      List.sorted_insertionSort _ _
    have hnd : (List.insertionSort (· ≤ ·) out.dedup).Nodup :=
      ((List.perm_insertionSort _ _).nodup_iff).mpr (List.nodup_dedup out)
    refine ⟨hsorted.lt_of_le hnd, ?_⟩
    intro p hp'
    have hmem : p ∈ out.dedup := ((List.perm_insertionSort _ _).mem_iff).mp hp'
    exact pageLoop_pos _ [] out hp (by simp) p (List.mem_dedup.mp hmem)

lemma compute_pages_propagates (incl excl : PageSpec) (t : Option ℤ) (e : String)
    (h : parse_page_ranges incl = .error e) :
    compute_pages incl excl t = .error e := by
  simp only [compute_pages, h]
  rfl

lemma not_isMalformed_empty : ¬ IsMalformedPart "" := by
  rintro (⟨hlen, _⟩ | ⟨_, n, hn, _⟩)
  · have h1 : (pySplitOn '-' "").length = 1 := by decide
    omega
  · have h1 : pyInt "" = none := by decide
    rw [h1] at hn
    exact Option.noConfusion hn

/-- A successful `pageLoop` run means no part of the spec was an inverted
range or a non-positive page: the loop raises on every malformed part it
reaches, so an `ok` result rules them all out. -/
lemma pageLoop_ok_no_malformed :
    ∀ (parts : List String) (out res : List ℤ),
    pageLoop parts out = .ok res → ∀ p ∈ parts, ¬ IsMalformedPart p := by
  intro parts
  induction parts with
  | nil => intro out res h p hp; exact absurd hp (List.not_mem_nil p)
  | cons part rest ih =>
    intro out res h p hp
    simp only [pageLoop] at h
    split at h
    · next h1 =>
      rcases List.mem_cons.mp hp with rfl | hrest
      · rw [h1]
        exact not_isMalformed_empty
      · exact ih out res h p hrest
    · next h1 =>
      split at h
      · next h2 =>
        split at h
        · simp at h
        · next a bs heq =>
          split at h
          · next start stop heq1 heq2 =>
            split at h
            · simp at h
            · next h3 =>
              rcases List.mem_cons.mp hp with rfl | hrest
              · rintro (⟨hlen, s, t, hs, ht, hbad⟩ | ⟨hlen, n, hn, hneg⟩)
                · rw [heq] at hs ht
                  simp only [List.headD_cons, List.tail_cons] at hs ht
                  rw [heq1] at hs
                  rw [heq2] at ht
                  injection hs with hs'
                  injection ht with ht'
                  subst hs'
                  subst ht'
                  exact h3 hbad
                · exact hlen h2
              · exact ih _ res h p hrest
          · simp at h
      · next h2 =>
        split at h
        · next n0 heq0 =>
          split at h
          · simp at h
          · next h3 =>
            rcases List.mem_cons.mp hp with rfl | hrest
            · rintro (⟨hlen, _⟩ | ⟨_, n, hn, hneg⟩)
              · exact h2 hlen
              · rw [heq0] at hn
                injection hn with hn'
                subst hn'
                exact h3 hneg
            · exact ih _ res h p hrest
        · simp at h

/-- C10: for EVERY page spec containing an inverted range or a non-positive
page among its parts (also mixed with valid parts), `parse_page_ranges`
raises `ValueError` instead of skipping the malformed part; the error
propagates through `compute_pages` and the enqueue-time preflight counting
(`_count_selected_pages`); on every valid spec the result is a sorted,
duplicate-free list of positive pages.  The claim's examples `"5-3"` and
`"0"` are malformed parts in this sense. -/
theorem page_range_validation (spec : PageSpec) :
    ((∃ p ∈ pageParts spec, IsMalformedPart p) →
      ∃ e, parse_page_ranges spec = .error e) ∧
    (∀ l, parse_page_ranges spec = .ok l →
      l.Sorted (· < ·) ∧ ∀ p ∈ l, 0 < p) ∧
    (∀ (incl excl : PageSpec) (t : Option ℤ) (e : String),
      parse_page_ranges incl = .error e → compute_pages incl excl t = .error e) ∧
    (∀ (total : ℤ) (incl excl : PageSpec) (e : String),
      parse_page_ranges incl = .error e →
      countSelectedPages total incl excl = .error e) ∧
    IsMalformedPart "5-3" ∧ IsMalformedPart "0" := by
  refine ⟨?_, ?_, compute_pages_propagates, ?_, ?_, ?_⟩
  · intro ⟨p, hp, hmal⟩
    cases hres : pageLoop (pageParts spec) [] with
    | error e => exact ⟨e, by simp [parse_page_ranges, hres, Except.map]⟩
    | ok out => exact absurd hmal (pageLoop_ok_no_malformed _ _ _ hres p hp)
  · intro l hl
    exact parse_page_ranges_ok spec l hl
  · intro total incl excl e he
    simp only [countSelectedPages, compute_pages_propagates incl excl (some total) e he]
    rfl
  · exact Or.inl ⟨by decide, 5, 3, by decide, by decide, Or.inr (Or.inr (by decide))⟩
  · exact Or.inr ⟨by decide, 0, by decide, le_refl 0⟩

/-- Witness for `page_range_validation`: the mixed spec `"1-5,5-3"` (valid
part then inverted range) raises rather than skipping, and a fully valid
spec parses to a sorted positive list. -/
theorem page_range_validation_witness :
    ("5-3" ∈ pageParts (.ofStr "1-5,5-3")) ∧
    (∃ e, parse_page_ranges (.ofStr "1-5,5-3") = .error e) ∧
    parse_page_ranges (.ofStr "1-3,7,2") = .ok [1, 2, 3, 7] ∧
    (([1, 2, 3, 7] : List ℤ).Sorted (· < ·) ∧
      ∀ p ∈ ([1, 2, 3, 7] : List ℤ), 0 < p) := by
  refine ⟨by decide, ?_, by decide, ?_⟩
  · exact (page_range_validation (.ofStr "1-5,5-3")).1
      ⟨"5-3", by decide, (page_range_validation (.ofStr "1-5,5-3")).2.2.2.2.1⟩
  · exact (page_range_validation (.ofStr "1-3,7,2")).2.1 [1, 2, 3, 7] (by decide)

/-! ### C8 — VDB dimension enforcement -/

lemma checkVectors_err {dim : Nat} :
    ∀ (vectors : List (List JVal)) (v : List JVal), v ∈ vectors →
    v.length ≠ dim → ∃ e, checkVectors dim vectors = .error e := by
  intro vectors
  induction vectors with
  | nil => intro v hv _; exact absurd hv (List.not_mem_nil v)
  | cons w ws ih =>
    intro v hv hlen
    simp only [checkVectors]
    by_cases h1 : w.length ≠ dim
    · rw [if_pos h1]; exact ⟨_, rfl⟩
    · rw [if_neg h1]
      push_neg at h1
      cases hs : vdbSanitizeVec w with
      | error e => exact ⟨e, rfl⟩
      | ok _ =>
        have hv' : v ∈ ws := by
          rcases List.mem_cons.mp hv with h | h
          · exact absurd (h ▸ h1) hlen
          · exact h
        exact ih v hv' hlen

/-- C8: a vector whose length differs from the collection's declared
dimension, at any position of the batch, makes `VDB.upsert` raise before any
network call (`0` calls, store unchanged); same for a mismatched query
vector in `VDB.search`. -/
theorem vdb_dimension_enforcement (dim : Nat) (st : QdrantStore)
    (uuid : Nat → String) (vectors : List (List JVal)) (payloads : List Payload)
    (ids : Option (List String)) (v : List JVal)
    (hv : v ∈ vectors) (hlen : v.length ≠ dim) :
    (∃ e, VDB.upsert dim st uuid vectors payloads ids = (.error e, st, 0)) ∧
    (∀ (knn : QdrantStore → List JVal → Nat → List (String × ℚ × Payload))
      (q : List JVal) (topK : Nat), q.length ≠ dim →
      ∃ e, VDB.search dim st knn q topK = (.error e, st, 0)) := by
  constructor
  · unfold VDB.upsert
    by_cases h1 : vectors.length ≠ payloads.length
    · rw [if_pos h1]; exact ⟨_, rfl⟩
    · rw [if_neg h1]
      by_cases h2 : ∃ l, ids = some l ∧ l.length ≠ vectors.length
      · rw [dif_pos h2]; exact ⟨_, rfl⟩
      · rw [dif_neg h2]
        have hne : vectors ≠ [] := by
          intro hc; rw [hc] at hv; exact List.not_mem_nil v hv
        rw [if_neg hne]
        by_cases h3 : (vectors.headD []).length ≠ dim
        · simp only [if_pos h3]
          exact ⟨_, rfl⟩
        · simp only [if_neg h3]
          obtain ⟨e, he⟩ := checkVectors_err vectors v hv hlen
          rw [he]
          exact ⟨e, rfl⟩
  · intro knn q topK hq
    unfold VDB.search
    rw [if_pos hq]
    exact ⟨_, rfl⟩

/-- Witness for `vdb_dimension_enforcement`: a 1-dimensional vector fed into
an upsert against a 3-dimensional collection. -/
theorem vdb_dimension_enforcement_witness :
    ([JVal.num 1] ∈ [[JVal.num 1]] ∧ ([JVal.num 1] : List JVal).length ≠ 3) ∧
    (∃ e, VDB.upsert 3 ⟨true, []⟩ (fun _ => "u") [[JVal.num 1]] [[]] none =
      (.error e, ⟨true, []⟩, 0)) :=
  ⟨⟨List.mem_singleton.mpr rfl, by decide⟩,
    (vdb_dimension_enforcement 3 ⟨true, []⟩ (fun _ => "u") [[JVal.num 1]] [[]]
      none [JVal.num 1] (List.mem_singleton.mpr rfl) (by decide)).1⟩

/-! ### C9 — search over empty/nonexistent collection -/

/-- C9: a search against a nonexistent collection, an empty collection, or a
collection whose `count()` call fails in transport returns the structured
`("error", [])` response instead of raising. -/
theorem search_empty_collection (st : QdrantStore)
    (countOutcome : Except String Nat)
    (f : Unit → Except String (List (String × ℚ × Payload))) :
    (st.collectionExists = false →
      routeSearch st countOutcome f = .ok ("error", [])) ∧
    (countOutcome = .ok 0 → routeSearch st countOutcome f = .ok ("error", [])) ∧
    (∀ e, countOutcome = .error e →
      routeSearch st countOutcome f = .ok ("error", [])) := by
  refine ⟨?_, ?_, ?_⟩
  · intro h
    simp [routeSearch, h]
  · intro h
    cases hex : st.collectionExists
    · simp [routeSearch, hex]
    · simp [routeSearch, hex, h]
  · intro e h
    cases hex : st.collectionExists
    · simp [routeSearch, hex]
    · simp [routeSearch, hex, h]

/-- Witness for `search_empty_collection`: an existing but empty collection
(count `0`). -/
theorem search_empty_collection_witness :
    routeSearch ⟨true, []⟩ (.ok (QdrantStore.pointCount ⟨true, []⟩))
      (fun _ => .error "transport") = .ok ("error", []) :=
  (search_empty_collection ⟨true, []⟩ (.ok (QdrantStore.pointCount ⟨true, []⟩))
    (fun _ => .error "transport")).2.1 (by decide)

/-! ### C6 — retry bound and backend fallthrough -/

lemma retryGo_exhaust (fn : Nat → Except String (List JVal))
    (hfail : ∀ k, ∃ e, fn k = .error e) :
    ∀ (remaining attempt : Nat),
      (retryGo fn attempt remaining).2 = remaining + 1 ∧
      ∃ e, (retryGo fn attempt remaining).1 = .error e := by
  intro remaining
  induction remaining with
  | zero =>
    intro attempt
    obtain ⟨e, he⟩ := hfail attempt
    have heq : retryGo fn attempt 0 = (.error e, 1) := by
      rw [retryGo, he]
    rw [heq]
    exact ⟨rfl, ⟨e, rfl⟩⟩
  | succ r ih =>
    intro attempt
    obtain ⟨e, he⟩ := hfail attempt
    obtain ⟨hc, he'⟩ := ih (attempt + 1)
    have heq : retryGo fn attempt (r + 1) =
        ((retryGo fn (attempt + 1) r).1, (retryGo fn (attempt + 1) r).2 + 1) := by
      rw [retryGo, he]
    rw [heq]
    exact ⟨by omega, he'⟩

/-- C6: a single-item call against an always-failing backend is attempted
exactly `max_retries + 1` times and then fails; a backend whose batch fails
makes the orchestrator raise when it is the only backend
(`tryBackends … [b]` ends in the error) and move on to the fallback when one
follows (`(b, pt)` is followed by `(fb, pt)` in the call trace). -/
theorem embed_retry_bound (m : Nat) (fn : Nat → Except String (List JVal))
    (hfail : ∀ k, ∃ e, fn k = .error e) :
    ((Embedder.retry m fn).2 = m + 1 ∧
      ∃ e, (Embedder.retry m fn).1 = .error e) ∧
    (∀ (cfg : EmbeddingConfig) oracle (pt : List String) (b e0 : String) e,
      attemptBackend cfg oracle b pt = .error e →
      tryBackends cfg oracle pt [b] e0 = (.error e, [(b, pt)])) ∧
    (∀ (cfg : EmbeddingConfig) oracle (pt : List String) (b fb e0 : String)
      (rest : List String) e,
      attemptBackend cfg oracle b pt = .error e →
      ((tryBackends cfg oracle pt (b :: fb :: rest) e0).2.take 2) =
        [(b, pt), (fb, pt)]) := by
  refine ⟨retryGo_exhaust fn hfail m 0, ?_, ?_⟩
  · intro cfg oracle pt b e0 e h
    simp [tryBackends, h]
  · intro cfg oracle pt b fb e0 rest e h
    cases hf : attemptBackend cfg oracle fb pt with
    | ok vecs => simp [tryBackends, h, hf]
    | error e2 => simp [tryBackends, h, hf]

/-- Witness for `embed_retry_bound`: `max_retries = 2` gives exactly `3`
attempts on an always-failing call. -/
theorem embed_retry_bound_witness :
    (Embedder.retry 2 (fun _ => .error "always down")).2 = 2 + 1 ∧
    ∃ e, (Embedder.retry 2 (fun _ => .error "always down")).1 = .error e :=
  (embed_retry_bound 2 (fun _ => .error "always down")
    (fun _ => ⟨"always down", rfl⟩)).1

/-! ### C7 — fallback retries the same pending subset -/

lemma tryBackends_trace_snd (cfg : EmbeddingConfig)
    (oracle : String → Nat → String → Except String (List JVal))
    (pt : List String) :
    ∀ (order : List String) (e0 : String),
    ∀ call ∈ (tryBackends cfg oracle pt order e0).2, call.2 = pt := by
  intro order
  induction order with
  | nil => intro e0 call hc; simp [tryBackends] at hc
  | cons b rest ih =>
    intro e0 call hc
    cases hb : attemptBackend cfg oracle b pt with
    | ok vecs =>
      simp [tryBackends, hb] at hc
      rw [hc]
    | error e =>
      simp only [tryBackends, hb, List.mem_cons] at hc
      rcases hc with hc | hc
      · rw [hc]
      · exact ih e call hc

lemma getD_replicate_none {n j : Nat} :
    (List.replicate n (none : Option (List JVal))).getD j none = none := by
  rcases lt_or_ge j n with h | h
  · rw [List.getD_eq_getElem _ _ (by simpa using h)]
    simp
  · rw [List.getD_eq_default _ _ (by simpa using h)]

/-- Pending indices are exactly the positions without a cached result. -/
lemma cachePhase_pending_iff (texts : List String) (ids : Option (List String))
    (cache : Option (List (String × List JVal)))
    (results : List (Option (List JVal))) (pending : List Nat)
    (h : cachePhase texts ids cache = .ok (results, pending)) :
    ∀ j, j ∈ pending ↔ j < texts.length ∧ results.getD j none = none := by
  intro j
  unfold cachePhase at h
  split at h
  · next idl c =>
    split at h
    · split at h
      · simp at h
      · next res =>
        simp only [Except.ok.injEq, Prod.mk.injEq] at h
        obtain ⟨h1, h2⟩ := h
        subst h1
        subst h2
        simp [List.mem_filter, List.mem_range]
    · simp only [Except.ok.injEq, Prod.mk.injEq] at h
      obtain ⟨h1, h2⟩ := h
      subst h1
      subst h2
      simp [List.mem_range, getD_replicate_none]
  · simp only [Except.ok.injEq, Prod.mk.injEq] at h
    obtain ⟨h1, h2⟩ := h
    subst h1
    subst h2
    simp [List.mem_range, getD_replicate_none]

/-- The orchestrator's backend-call trace is the trace of the backend loop
over the pending subset. -/
lemma embed_trace_eq (cfg : EmbeddingConfig)
    (oracle : String → Nat → String → Except String (List JVal))
    (texts : List String) (ids : Option (List String))
    (cache : Option (List (String × List JVal)))
    (results : List (Option (List JVal))) (pending : List Nat)
    (hcp : cachePhase (trimTexts texts) ids cache = .ok (results, pending))
    (hne : texts ≠ []) (hpne : pending ≠ []) :
    (Embedder.embed cfg oracle texts ids cache).2 =
      (tryBackends cfg oracle (pending.map (fun i => (trimTexts texts).getD i ""))
        (backendOrder cfg) "Embedding failed").2 := by
  simp only [Embedder.embed, if_neg hne, hcp]
  rw [if_neg hpne]
  cases hp : (tryBackends cfg oracle
      (pending.map (fun i => (trimTexts texts).getD i ""))
      (backendOrder cfg) "Embedding failed").1 with
  | error e => simp [hp]
  | ok vecs =>
    simp only [hp]
    cases hm : allSome (fillResults results pending vecs) with
    | none => simp [hm]
    | some final => simp [hm]

/-- C7: every backend batch call of one `embed` run — the primary's and, on
primary exhaustion, the fallback's — receives exactly the same pending
subset (cache hits are never in it), and when the primary fails with a
distinct fallback configured the trace is exactly the pending subset sent
first to the primary and then to the fallback. -/
theorem embed_fallback_same_pending (cfg : EmbeddingConfig)
    (oracle : String → Nat → String → Except String (List JVal))
    (texts : List String) (ids : Option (List String))
    (cache : Option (List (String × List JVal)))
    (results : List (Option (List JVal))) (pending : List Nat)
    (hcp : cachePhase (trimTexts texts) ids cache = .ok (results, pending))
    (hne : texts ≠ []) (hpne : pending ≠ []) :
    (∀ call ∈ (Embedder.embed cfg oracle texts ids cache).2,
      call.2 = pending.map (fun i => (trimTexts texts).getD i "")) ∧
    (∀ i v, results.getD i none = some v → i ∉ pending) ∧
    (∀ fb, cfg.fallback = some fb → fb ≠ cfg.primary →
      (∃ e, attemptBackend cfg oracle cfg.primary
        (pending.map (fun i => (trimTexts texts).getD i "")) = .error e) →
      (Embedder.embed cfg oracle texts ids cache).2 =
        [(cfg.primary, pending.map (fun i => (trimTexts texts).getD i "")),
         (fb, pending.map (fun i => (trimTexts texts).getD i ""))]) := by
  refine ⟨?_, ?_, ?_⟩
  · rw [embed_trace_eq cfg oracle texts ids cache results pending hcp hne hpne]
    exact tryBackends_trace_snd cfg oracle _ _ _
  · intro i v hv hmem
    have := (cachePhase_pending_iff _ _ _ _ _ hcp i).mp hmem
    rw [this.2] at hv
    exact Option.noConfusion hv
  · intro fb hfb hfbne ⟨e, he⟩
    rw [embed_trace_eq cfg oracle texts ids cache results pending hcp hne hpne]
    have horder : backendOrder cfg = [cfg.primary, fb] := by
      simp [backendOrder, hfb, if_pos hfbne]
    rw [horder]
    cases hf : attemptBackend cfg oracle fb
        (pending.map (fun i => (trimTexts texts).getD i "")) with
    | ok vecs => simp only [tryBackends, he, hf]
    | error e2 => simp only [tryBackends, he, hf]

/-- Witness for `embed_fallback_same_pending`: `"a"` is a cache hit, `"b"`
is pending; the failing primary and the fallback each receive exactly
`["b"]`. -/
theorem embed_fallback_same_pending_witness :
    cachePhase (trimTexts ["a", "b"]) (some ["i1", "i2"])
      (some [("i1", [JVal.num 5])]) = .ok ([some [JVal.num 5], none], [1]) ∧
    (Embedder.embed ⟨1, "ollama", some "cloudflare", 0⟩
      (fun b _ _ => if b = "ollama" then .error "down" else .ok [JVal.num 0])
      ["a", "b"] (some ["i1", "i2"]) (some [("i1", [JVal.num 5])])).2 =
      [("ollama", ["b"]), ("cloudflare", ["b"])] := by
  refine ⟨by decide, ?_⟩
  have h := (embed_fallback_same_pending ⟨1, "ollama", some "cloudflare", 0⟩
    (fun b _ _ => if b = "ollama" then .error "down" else .ok [JVal.num 0])
    ["a", "b"] (some ["i1", "i2"]) (some [("i1", [JVal.num 5])])
    [some [JVal.num 5], none] [1] (by decide) (by decide) (by decide)).2.2
    "cloudflare" rfl (by decide)
    ⟨"single-item call failed after retries: down", by decide⟩
  rw [show ([1] : List Nat).map (fun i => (trimTexts ["a", "b"]).getD i "") =
    ["b"] from by decide] at h
  exact h

/-! ### C3 — sanitization and the first-vector-only dimension check -/

lemma mapOrError_sanitize_err :
    ∀ (l : List (List JVal)), (∃ v ∈ l, v.any (fun x => !x.isFiniteNum)) →
    ∃ e, mapOrError sanitize_vec l = .error e := by
  intro l
  induction l with
  | nil => intro ⟨v, hv, _⟩; exact absurd hv (List.not_mem_nil v)
  | cons w ws ih =>
    intro ⟨v, hv, hbad⟩
    by_cases hw : w.any (fun x => !x.isFiniteNum)
    · have hsw : sanitize_vec w =
          .error "Invalid number in embedding vector (NaN/Inf/None/bool)." := by
        simp [sanitize_vec, hw]
      exact ⟨"Invalid number in embedding vector (NaN/Inf/None/bool).",
        by simp only [mapOrError, hsw]⟩
    · have hsw : sanitize_vec w = .ok w := by simp [sanitize_vec, hw]
      have hv' : v ∈ ws := by
        rcases List.mem_cons.mp hv with h | h
        · exact absurd (h ▸ hbad) (by simpa using hw)
        · exact h
      obtain ⟨e, he⟩ := ih ⟨v, hv', hbad⟩
      exact ⟨e, by simp only [mapOrError, hsw, he]⟩

lemma mapOrError_sanitize_ok :
    ∀ (l l' : List (List JVal)), mapOrError sanitize_vec l = .ok l' →
    l' = l ∧ ∀ v ∈ l', ∀ x ∈ v, x.isFiniteNum := by
  intro l
  induction l with
  | nil =>
    intro l' h
    simp only [mapOrError, Except.ok.injEq] at h
    subst h
    exact ⟨rfl, by simp⟩
  | cons w ws ih =>
    intro l' h
    by_cases hw : w.any (fun x => !x.isFiniteNum)
    · have hsw : sanitize_vec w =
          .error "Invalid number in embedding vector (NaN/Inf/None/bool)." := by
        simp [sanitize_vec, hw]
      simp only [mapOrError, hsw] at h
      exact Except.noConfusion h
    · have hsw : sanitize_vec w = .ok w := by simp [sanitize_vec, hw]
      simp only [mapOrError, hsw] at h
      cases hws : mapOrError sanitize_vec ws with
      | error e =>
        rw [hws] at h
        exact Except.noConfusion h
      | ok ws' =>
        rw [hws] at h
        simp only [Except.ok.injEq] at h
        subst h
        obtain ⟨h1, h2⟩ := ih ws' hws
        subst h1
        refine ⟨rfl, ?_⟩
        intro v hv x hx
        rcases List.mem_cons.mp hv with hh | hh
        · subst hh
          have hwx : ¬ ((!x.isFiniteNum) = true) := by
            intro hc
            exact hw (List.any_eq_true.mpr ⟨x, hx, hc⟩)
          simpa using hwx
        · exact h2 v hh x hx

/-- C3 (amended): every vector of a successful backend batch is sanitized
(any NaN/Inf/null/bool entry fails that backend's whole batch), but the
dimension check covers only the FIRST vector of the batch: a mismatched
first vector aborts the batch, and on success the first vector is guaranteed
to match the declared dimension, later vectors are not checked. -/
theorem embed_sanitize_and_first_dim_check (cfg : EmbeddingConfig)
    (oracle : String → Nat → String → Except String (List JVal))
    (b : String) (ts : List String) (vecs : List (List JVal))
    (h : embedBackendBatch cfg oracle b ts = .ok vecs) :
    ((∃ v ∈ vecs, v.any (fun x => !x.isFiniteNum)) →
      ∃ e, attemptBackend cfg oracle b ts = .error e) ∧
    (∀ v0 vr, vecs = v0 :: vr → v0.length ≠ cfg.dim →
      ∃ e, attemptBackend cfg oracle b ts = .error e) ∧
    (∀ out, attemptBackend cfg oracle b ts = .ok out →
      out = vecs ∧ (∀ v ∈ out, ∀ x ∈ v, x.isFiniteNum) ∧
      ∀ v0 vr, out = v0 :: vr → v0.length = cfg.dim) := by
  refine ⟨?_, ?_, ?_⟩
  · intro hbad
    obtain ⟨e, he⟩ := mapOrError_sanitize_err vecs hbad
    exact ⟨e, by simp only [attemptBackend, h, he]⟩
  · intro v0 vr hv hlen
    subst hv
    cases hs : mapOrError sanitize_vec (v0 :: vr) with
    | error e => exact ⟨e, by simp only [attemptBackend, h, hs]⟩
    | ok vecsS =>
      obtain ⟨h1, _⟩ := mapOrError_sanitize_ok _ _ hs
      subst h1
      have hval : validateDims cfg.dim (v0 :: vr) =
          .error ("Vector dim mismatch: dim=" ++ toString v0.length ++
            ", expected=" ++ toString cfg.dim ++
            ". Adjust profile.embedding.dim or model.") := by
        simp [validateDims, hlen]
      exact ⟨"Vector dim mismatch: dim=" ++ toString v0.length ++
          ", expected=" ++ toString cfg.dim ++
          ". Adjust profile.embedding.dim or model.",
        by simp only [attemptBackend, h, hs, hval]⟩
  · intro out hout
    cases hs : mapOrError sanitize_vec vecs with
    | error e =>
      have hab : attemptBackend cfg oracle b ts = .error e := by
        simp only [attemptBackend, h, hs]
      rw [hab] at hout
      exact Except.noConfusion hout
    | ok vecsS =>
      obtain ⟨h1, h2⟩ := mapOrError_sanitize_ok _ _ hs
      subst h1
      cases hval : validateDims cfg.dim vecsS with
      | error e =>
        have hab : attemptBackend cfg oracle b ts = .error e := by
          simp only [attemptBackend, h, hs, hval]
        rw [hab] at hout
        exact Except.noConfusion hout
      | ok u =>
        have hab : attemptBackend cfg oracle b ts = .ok vecsS := by
          simp only [attemptBackend, h, hs, hval]
        rw [hab] at hout
        simp only [Except.ok.injEq] at hout
        subst hout
        refine ⟨rfl, h2, ?_⟩
        intro v0 vr hv
        subst hv
        by_contra hne
        simp [validateDims, hne] at hval

/-- Witness for `embed_sanitize_and_first_dim_check`: a mismatched first
vector aborts the batch. -/
theorem embed_sanitize_first_dim_witness :
    embedBackendBatch ⟨2, "ollama", none, 0⟩ (fun _ _ _ => .ok [JVal.num 1])
      "ollama" ["a"] = .ok [[JVal.num 1]] ∧
    ∃ e, attemptBackend ⟨2, "ollama", none, 0⟩ (fun _ _ _ => .ok [JVal.num 1])
      "ollama" ["a"] = .error e :=
  ⟨by decide,
    (embed_sanitize_and_first_dim_check ⟨2, "ollama", none, 0⟩
      (fun _ _ _ => .ok [JVal.num 1]) "ollama" ["a"] [[JVal.num 1]]
      (by decide)).2.1 [JVal.num 1] [] rfl (by decide)⟩

/-- C3 (counterexample): with declared dimension 2, a batch whose first
vector has length 2 but whose second has length 1 passes validation and
`embed` returns it as a success — the mismatched second vector does NOT
abort the batch with `EmbeddingError`. -/
theorem embed_dim_check_misses_later_vectors :
    (Embedder.embed ⟨2, "ollama", none, 2⟩
      (fun _ _ t => .ok (if t = "a" then [.num 0, .num 0] else [.num 1]))
      ["a", "b"] none none).1 = .ok [[.num 0, .num 0], [.num 1]] ∧
    ([JVal.num 1] : List JVal).length ≠ 2 := by
  exact ⟨by decide, by decide⟩

/-! ### C2 — one active job per profile (durable rows only) -/

lemma cancel_row_inactive (r : JobRow) (profile : String) :
    (((if r.profile == profile && r.isActive then { r with status := .canceled }
        else r).profile == profile) &&
      (if r.profile == profile && r.isActive then { r with status := .canceled }
        else r).isActive) = false := by
  by_cases h : (r.profile == profile && r.isActive) = true
  · rw [if_pos h]
    have h2 : ({ r with status := JobStatus.canceled } : JobRow).isActive = false := rfl
    rw [h2, Bool.and_false]
  · rw [if_neg h]
    simpa using h

/-- C2 (amended): `enqueue_ingest` first marks every QUEUED/RUNNING row of
the profile CANCELED in the durable table, reporting their count as
`canceled_previous` (1 when exactly one was active), and immediately after
enqueue the new job is the only QUEUED/RUNNING row for that profile. -/
theorem enqueue_single_active_row (tbl : JobsTable) (profile newId : String) :
    (enqueue_ingest tbl profile newId).2 =
      (tbl.filter (fun r => r.profile == profile && r.isActive)).length ∧
    (∀ r ∈ (enqueue_ingest tbl profile newId).1,
      r.profile = profile → r.isActive → r.jobId = newId) ∧
    ((enqueue_ingest tbl profile newId).1.filter
      (fun r => r.profile == profile && r.isActive)).length = 1 := by
  refine ⟨rfl, ?_, ?_⟩
  · intro r hr hprof hact
    simp only [enqueue_ingest, cancel_queued_or_running_for_profile, start_job,
      List.mem_append, List.mem_map] at hr
    rcases hr with ⟨r0, hr0, rfl⟩ | hr
    · by_cases hcond : (r0.profile == profile && r0.isActive) = true
      · rw [if_pos hcond] at hact
        have hfalse : ({ r0 with status := JobStatus.canceled } : JobRow).isActive
            = false := rfl
        rw [hfalse] at hact
        exact Bool.noConfusion hact
      · rw [if_neg hcond] at hprof hact
        exact absurd (by simp [hprof, hact]) hcond
    · simp only [List.mem_singleton] at hr
      rw [hr]
  · simp only [enqueue_ingest, cancel_queued_or_running_for_profile, start_job]
    rw [List.filter_append]
    have h1 : (tbl.map (fun r =>
        if r.profile == profile && r.isActive then { r with status := .canceled }
        else r)).filter (fun r => r.profile == profile && r.isActive) = [] := by
      rw [List.filter_eq_nil_iff]
      intro a ha
      obtain ⟨r0, _, rfl⟩ := List.mem_map.mp ha
      simpa using cancel_row_inactive r0 profile
    rw [h1]
    simp [JobRow.isActive]

/-- Witness for `enqueue_single_active_row`: one RUNNING job, then a second
enqueue for the same profile. -/
theorem enqueue_single_active_row_witness :
    (enqueue_ingest [⟨"j1", "p", .running, .extract, none⟩] "p" "j2").2 =
      (([⟨"j1", "p", .running, .extract, none⟩] : JobsTable).filter
        (fun r => r.profile == "p" && r.isActive)).length ∧
    (⟨"j2", "p", JobStatus.queued, JobPhase.preflight, none⟩ : JobRow).jobId = "j2" ∧
    ((enqueue_ingest [⟨"j1", "p", .running, .extract, none⟩] "p" "j2").1.filter
      (fun r => r.profile == "p" && r.isActive)).length = 1 := by
  have h := enqueue_single_active_row [⟨"j1", "p", .running, .extract, none⟩] "p" "j2"
  refine ⟨h.1, ?_, h.2.2⟩
  exact h.2.1 ⟨"j2", "p", .queued, .preflight, none⟩ (by decide) rfl rfl

/-- C2 (counterexample): enqueue only updates the durable rows — it never
cancels the previous job's `asyncio.Task` (only `cancel_all_ingest` touches
the task registry).  So after `enqueue("profileA")` reports
`canceled_previous = 1`, the first job's still-running worker eventually
calls `finish_job(..., COMPLETED)` and overwrites the CANCELED row: the
first job's final durable status is COMPLETED, not CANCELED. -/
theorem enqueue_leaves_task_running_counterexample :
    (enqueue_ingest (mark_running (start_job [] "j1" "profileA") "j1")
      "profileA" "j2").2 = 1 ∧
    jobStatus (finish_job
      (enqueue_ingest (mark_running (start_job [] "j1" "profileA") "j1")
        "profileA" "j2").1 "j1" .completed none) "j1" = some .completed ∧
    jobStatus (finish_job
      (enqueue_ingest (mark_running (start_job [] "j1" "profileA") "j1")
        "profileA" "j2").1 "j1" .completed none) "j1" ≠ some .canceled := by
  exact ⟨by decide, by decide, by decide⟩

/-- C1: the point ids `_worker_run_ingest` passes to `VDB.upsert` are fresh
`uuid4()` draws (`ids = [str(uuid.uuid4()) for _ in range(len(chunks))]`),
not a stable hash of `(doc_id, doc_path, chunk_index)`: two ingestion runs
of the same unchanged one-chunk document write under different point ids and
`count()` goes from 1 to 2 — re-ingestion duplicates instead of
overwriting.  Only the payload's `chunk_id` (and the embedding-cache key)
carries the deterministic triple. -/
theorem worker_point_ids_not_deterministic :
    workerPointIds (fun n => "uuid-run1-" ++ toString n) 1 ≠
      workerPointIds (fun n => "uuid-run2-" ++ toString n) 1 ∧
    (workerUpsertFile 1 ⟨true, []⟩ (fun n => "uuid-run1-" ++ toString n)
      "prof" "/docs/a.pdf" ["c0"] [[.num 0]]).1 = .ok ["uuid-run1-0"] ∧
    (workerUpsertFile 1 ⟨true, []⟩ (fun n => "uuid-run1-" ++ toString n)
      "prof" "/docs/a.pdf" ["c0"] [[.num 0]]).2.1.pointCount = 1 ∧
    (workerUpsertFile 1
      (workerUpsertFile 1 ⟨true, []⟩ (fun n => "uuid-run1-" ++ toString n)
        "prof" "/docs/a.pdf" ["c0"] [[.num 0]]).2.1
      (fun n => "uuid-run2-" ++ toString n)
      "prof" "/docs/a.pdf" ["c0"] [[.num 0]]).1 = .ok ["uuid-run2-0"] ∧
    (workerUpsertFile 1
      (workerUpsertFile 1 ⟨true, []⟩ (fun n => "uuid-run1-" ++ toString n)
        "prof" "/docs/a.pdf" ["c0"] [[.num 0]]).2.1
      (fun n => "uuid-run2-" ++ toString n)
      "prof" "/docs/a.pdf" ["c0"] [[.num 0]]).2.1.pointCount = 2 ∧
    List.lookup "chunk_id"
      ((workerPayloads "prof" "/docs/a.pdf" ["c0"]).getD 0 []) =
      some "prof:a.pdf:0" := by
  exact ⟨by decide, by decide, by decide, by decide, by decide, by decide⟩

end LearningMcp
